import Mathlib

/-!
Formal model of the aviator crash-game backend (`src/main.py`).

The backend is a single-process asyncio application.  Request handlers
(`get_balance`, `topup_balance`, `place_bet`, `cashout`, `check_transactions`)
and the round engine (`round_loop`) interleave only at `await` points, so each
handler body and each engine segment between awaits executes atomically.  We
embed them as pure functions on an explicit state and model an execution as a
list of atomic events folded over the state.

Python floats are modelled as rationals (ℚ); `round(x, 2)` is modelled as
`round2`.  The SQLAlchemy `users` table (primary key `user_id`) and the
`bets` dict are modelled as association lists with unique keys; lookups take
the first match, which agrees with the unique-key semantics.
-/

namespace Aviator

/-- `round(x, 2)` from Python: round to two decimal places.  (Python uses
round-half-to-even on binary floats; Mathlib's `round` is half-up.  The two
agree except at exact two-decimal midpoints, which binary floats cannot
represent; no statement below depends on midpoint behaviour.) -/
def round2 (q : ℚ) : ℚ := ((round (q * 100) : ℤ) : ℚ) / 100

/-- Round phases of the spec, derived from the flags `accepting_bets` /
`round_active` of `main.py` (lines 57-58). -/
inductive Phase where
  | Waiting
  | Flight
  | Crashed
  deriving DecidableEq, Repr

/-- Lookup in the `users` table by primary key (`select(User).where(User.user_id == u)`). -/
def getUser : List (ℤ × ℚ) → ℤ → Option ℚ
  | [], _ => none
  | (k, v) :: rest, u => if k = u then some v else getUser rest u

/-- Overwrite the balance of an existing user row (`user.balance = ...` then commit). -/
def updateUser : List (ℤ × ℚ) → ℤ → ℚ → List (ℤ × ℚ)
  | [], _, _ => []
  | (k, v) :: rest, u, nv => if k = u then (k, nv) :: rest else (k, v) :: updateUser rest u nv

/-- Insert a fresh user row (`session.add(User(user_id=..., balance=...))`). -/
def addUser (db : List (ℤ × ℚ)) (u : ℤ) (v : ℚ) : List (ℤ × ℚ) := db ++ [(u, v)]

/-- Lookup in the `bets` dict (`bets[user_id]`); the stored dict value is
`{"amount": ..., "auto_cashout": None}` and `auto_cashout` is always `None`,
so we keep only the amount. -/
def getBet : List (ℤ × ℚ) → ℤ → Option ℚ
  | [], _ => none
  | (k, v) :: rest, u => if k = u then some v else getBet rest u

/-- Dict assignment `bets[user_id] = {...}`: overwrite if present, else insert. -/
def setBet : List (ℤ × ℚ) → ℤ → ℚ → List (ℤ × ℚ)
  | [], u, a => [(u, a)]
  | (k, v) :: rest, u, a => if k = u then (u, a) :: rest else (k, v) :: setBet rest u a

/-- `del bets[user_id]`. -/
def delBet (l : List (ℤ × ℚ)) (u : ℤ) : List (ℤ × ℚ) := l.filter (fun p => p.1 ≠ u)

/-- The shared mutable state of `main.py`: the `users` table plus the module
globals `bets`, `current_multiplier`, `crash_multiplier`, `round_active`,
`accepting_bets` (lines 52-58). -/
structure GameState where
  balances : List (ℤ × ℚ)
  bets : List (ℤ × ℚ)
  currentMultiplier : ℚ
  crashMultiplier : ℚ
  roundActive : Bool
  acceptingBets : Bool
  deriving DecidableEq, Repr

/-- Initial module state (`main.py` lines 52-58 with an empty database). -/
def initState : GameState :=
  { balances := [], bets := [], currentMultiplier := 1, crashMultiplier := 2,
    roundActive := false, acceptingBets := false }

/-- The spec's round phase, read off the two flags: `Waiting` while
`accepting_bets` is set, `Flight` while `round_active` is set, `Crashed`
otherwise (the post-crash pause). -/
def phase (s : GameState) : Phase :=
  if s.acceptingBets then .Waiting else if s.roundActive then .Flight else .Crashed

/-- `GET /balance` (lines 61-66): the reported balance, rounded to 2 decimals,
`0.0` for an unknown user. -/
def get_balance (db : List (ℤ × ℚ)) (u : ℤ) : ℚ :=
  match getUser db u with
  | some b => round2 b
  | none => 0

/-- `POST /topup_balance` (lines 68-79): add the amount to an existing row or
create the row; no validation of the amount. -/
def topup_balance (db : List (ℤ × ℚ)) (u : ℤ) (amount : ℚ) : List (ℤ × ℚ) :=
  match getUser db u with
  | some b => updateUser db u (b + amount)
  | none => addUser db u amount

/-- Outcome of `POST /place_bet`; constructors correspond to the returned
JSON messages: `bettingClosed` = "Қазір ставка қабылданбайды",
`insufficientBalance` = "Жеткілікті баланс жоқ" (also returned when the user
row is missing), `accepted` = "Ставка қабылданды". -/
inductive PlaceBetResult where
  | bettingClosed
  | insufficientBalance
  | accepted
  deriving DecidableEq, Repr

/-- `POST /place_bet` (lines 81-94). -/
def place_bet (s : GameState) (u : ℤ) (amount : ℚ) : GameState × PlaceBetResult :=
  if !s.acceptingBets then (s, .bettingClosed)
  else
    match getUser s.balances u with
    | none => (s, .insufficientBalance)
    | some b =>
      if b < amount then (s, .insufficientBalance)
      else
        ({ s with balances := updateUser s.balances u (b - amount),
                  bets := setBet s.bets u amount }, .accepted)

/-- Outcome of `POST /cashout`; constructors correspond to the returned JSON
messages: `betNotFound` = "Ставка табылмады", `userNotFound` =
"Пайдаланушы табылмады", `success win` = "Кэшаут сәтті! ..." with the
unrounded win amount. -/
inductive CashoutResult where
  | betNotFound
  | userNotFound
  | success (win : ℚ)
  deriving DecidableEq, Repr

/-- `POST /cashout` (lines 96-109).  Note: there is no check of the round
phase; only membership in `bets` gates the payout. -/
def cashout (s : GameState) (u : ℤ) : GameState × CashoutResult :=
  match getBet s.bets u with
  | none => (s, .betNotFound)
  | some amt =>
    match getUser s.balances u with
    | none => (s, .userNotFound)
    | some b =>
      let win := amt * s.currentMultiplier
      ({ s with balances := updateUser s.balances u (b + win),
                bets := delBet s.bets u }, .success win)

/-- The payout figure embedded in the success message of `POST /cashout`
(line 108: `f"Кэшаут сәтті! Ұтыс: \x7bround(win, 2)\x7d"`): the win rounded
to 2 decimals; `none` on failure. -/
def cashoutReportedPayout (s : GameState) (u : ℤ) : Option ℚ :=
  match (cashout s u).2 with
  | .success win => some (round2 win)
  | _ => none

/-- One atomic segment of `round_loop` (lines 174-198).  The loop position is
fully determined by the flags: `accepting_bets` set means the waiting window
is open and the next segment (lines 181-187) closes betting and enters
flight, drawing `crash_multiplier = round(uniform(1.5, 3.0), 2)` — the raw
draw is the `draw` argument; during flight (only `round_active` set) the next
segment is one tick of the `while current_multiplier < crash_multiplier` loop
(lines 189-192), or, once the condition fails, the crash segment
(lines 194-197) which clears `round_active` and empties `bets`; with both
flags clear (the post-crash pause, or process start) the next segment
(line 178) reopens betting. -/
def engineStep (draw : ℚ) (s : GameState) : GameState :=
  if s.acceptingBets then
    { s with acceptingBets := false, roundActive := true,
             currentMultiplier := 1, crashMultiplier := round2 draw }
  else if s.roundActive then
    if s.currentMultiplier < s.crashMultiplier then
      { s with currentMultiplier := round2 (s.currentMultiplier + 1 / 100) }
    else
      { s with roundActive := false, bets := [] }
  else
    { s with acceptingBets := true }

/-- Atomic events of an execution: the three state-mutating request handlers
and one engine segment.  (`get_balance` is read-only and `check_transactions`
touches a disjoint part of the state, modelled separately below.) -/
inductive Event where
  | topup (u : ℤ) (amount : ℚ)
  | placeBet (u : ℤ) (amount : ℚ)
  | cashoutReq (u : ℤ)
  | engine (draw : ℚ)
  deriving DecidableEq, Repr

/-- Effect of one atomic event on the shared state. -/
def step (s : GameState) (e : Event) : GameState :=
  match e with
  | .topup u a => { s with balances := topup_balance s.balances u a }
  | .placeBet u a => (place_bet s u a).1
  | .cashoutReq u => (cashout s u).1
  | .engine draw => engineStep draw s

/-- An execution: fold a list of atomic events over a state. -/
def run (s : GameState) (evs : List Event) : GameState := evs.foldl step s

/-! ### Basic lemmas about the table / dict operations -/

theorem getUser_updateUser_self {l : List (ℤ × ℚ)} {u : ℤ} {b : ℚ} (v : ℚ)
    (h : getUser l u = some b) : getUser (updateUser l u v) u = some v := by
  induction l with
  | nil => simp [getUser] at h
  | cons p rest ih =>
    obtain ⟨k, w⟩ := p
    by_cases hk : k = u
    · simp [getUser, updateUser, hk]
    · simp [getUser, hk] at h
      simp [getUser, updateUser, hk, ih h]

theorem getUser_updateUser_ne {l : List (ℤ × ℚ)} {u u' : ℤ} (v : ℚ) (h : u' ≠ u) :
    getUser (updateUser l u v) u' = getUser l u' := by
  induction l with
  | nil => simp [updateUser]
  | cons p rest ih =>
    obtain ⟨k, w⟩ := p
    by_cases hk : k = u
    · subst hk
      simp [getUser, updateUser, Ne.symm h]
    · simp [getUser, updateUser, hk, ih]

theorem getUser_addUser_self {l : List (ℤ × ℚ)} {u : ℤ} (v : ℚ)
    (h : getUser l u = none) : getUser (addUser l u v) u = some v := by
  induction l with
  | nil => simp [getUser, addUser]
  | cons p rest ih =>
    obtain ⟨k, w⟩ := p
    by_cases hk : k = u
    · simp [getUser, hk] at h
    · simp [getUser, hk] at h
      simpa [getUser, addUser, hk] using ih h

theorem getUser_addUser_ne {l : List (ℤ × ℚ)} {u u' : ℤ} (v : ℚ) (h : u' ≠ u) :
    getUser (addUser l u v) u' = getUser l u' := by
  induction l with
  | nil => simp [getUser, addUser, Ne.symm h]
  | cons p rest ih =>
    obtain ⟨k, w⟩ := p
    by_cases hk : k = u'
    · simp [getUser, addUser, hk]
    · simpa [getUser, addUser, hk] using ih

/-- Updating an absent key leaves the table unchanged. -/
theorem updateUser_absent {l : List (ℤ × ℚ)} {u : ℤ} (v : ℚ)
    (h : getUser l u = none) : updateUser l u v = l := by
  induction l with
  | nil => simp [updateUser]
  | cons p rest ih =>
    obtain ⟨k, w⟩ := p
    by_cases hk : k = u
    · simp [getUser, hk] at h
    · simp [getUser, hk] at h
      simp [updateUser, hk, ih h]

/-- A lookup ignores a freshly appended row when the key was already present. -/
theorem getUser_addUser_present {l : List (ℤ × ℚ)} {u : ℤ} {b : ℚ} (u' : ℤ) (v : ℚ)
    (h : getUser l u = some b) : getUser (addUser l u' v) u = some b := by
  induction l with
  | nil => simp [getUser] at h
  | cons p rest ih =>
    obtain ⟨k, w⟩ := p
    by_cases hk : k = u
    · simp [getUser, hk] at h
      simp [getUser, addUser, hk, h]
    · simp [getUser, hk] at h
      simpa [getUser, addUser, hk] using ih h

/-- Every balance in an updated table is the written value or an old value. -/
theorem getUser_updateUser_cases {l : List (ℤ × ℚ)} {u u' : ℤ} {v b : ℚ}
    (h : getUser (updateUser l u v) u' = some b) : b = v ∨ getUser l u' = some b := by
  by_cases hu : u' = u
  · subst hu
    cases hgu : getUser l u' with
    | none =>
      rw [updateUser_absent v hgu, hgu] at h
      simp at h
    | some b0 =>
      rw [getUser_updateUser_self v hgu] at h
      exact Or.inl (Option.some_injective _ h).symm
  · rw [getUser_updateUser_ne v hu] at h
    exact Or.inr h

theorem getUser_addUser_cases {l : List (ℤ × ℚ)} {u u' : ℤ} {v b : ℚ}
    (h : getUser (addUser l u v) u' = some b) : b = v ∨ getUser l u' = some b := by
  by_cases hu : u' = u
  · subst hu
    cases hgu : getUser l u' with
    | none =>
      rw [getUser_addUser_self v hgu] at h
      exact Or.inl (Option.some_injective _ h).symm
    | some b0 =>
      rw [getUser_addUser_present u' v hgu] at h
      exact Or.inr h
  · rw [getUser_addUser_ne v hu] at h
    exact Or.inr h

theorem getBet_setBet_self (l : List (ℤ × ℚ)) (u : ℤ) (a : ℚ) :
    getBet (setBet l u a) u = some a := by
  induction l with
  | nil => simp [setBet, getBet]
  | cons p rest ih =>
    obtain ⟨k, w⟩ := p
    by_cases hk : k = u
    · simp [setBet, getBet, hk]
    · simp [setBet, getBet, hk, ih]

theorem getBet_setBet_ne {l : List (ℤ × ℚ)} {u u' : ℤ} (a : ℚ) (h : u' ≠ u) :
    getBet (setBet l u a) u' = getBet l u' := by
  induction l with
  | nil => simp [setBet, getBet, Ne.symm h]
  | cons p rest ih =>
    obtain ⟨k, w⟩ := p
    by_cases hk : k = u
    · subst hk
      simp [setBet, getBet, Ne.symm h]
    · simp [setBet, getBet, hk, ih]

theorem getBet_setBet_cases {l : List (ℤ × ℚ)} {u u' : ℤ} {a b : ℚ}
    (h : getBet (setBet l u a) u' = some b) : b = a ∨ getBet l u' = some b := by
  by_cases hu : u' = u
  · subst hu
    rw [getBet_setBet_self] at h
    exact Or.inl (Option.some_injective _ h).symm
  · rw [getBet_setBet_ne a hu] at h
    exact Or.inr h

theorem getBet_delBet_self (l : List (ℤ × ℚ)) (u : ℤ) :
    getBet (delBet l u) u = none := by
  induction l with
  | nil => simp [delBet, getBet]
  | cons p rest ih =>
    obtain ⟨k, w⟩ := p
    by_cases hk : k = u
    · simpa [delBet, getBet, hk] using ih
    · simpa [delBet, getBet, hk] using ih

theorem getBet_delBet_ne {l : List (ℤ × ℚ)} {u u' : ℤ} (h : u' ≠ u) :
    getBet (delBet l u) u' = getBet l u' := by
  induction l with
  | nil => simp [delBet, getBet]
  | cons p rest ih =>
    obtain ⟨k, w⟩ := p
    by_cases hk : k = u
    · subst hk
      simpa [delBet, getBet, Ne.symm h] using ih
    · simp [delBet, getBet, hk] at ih ⊢
      by_cases hk' : k = u' <;> simp [hk', ih]

theorem getBet_delBet_cases {l : List (ℤ × ℚ)} {u u' : ℤ} {b : ℚ}
    (h : getBet (delBet l u) u' = some b) : getBet l u' = some b := by
  by_cases hu : u' = u
  · subst hu
    rw [getBet_delBet_self] at h
    cases h
  · rwa [getBet_delBet_ne hu] at h

/-! ### Phase lemmas -/

theorem phase_waiting_iff {s : GameState} : phase s = .Waiting ↔ s.acceptingBets = true := by
  unfold phase
  by_cases h1 : s.acceptingBets <;> by_cases h2 : s.roundActive <;> simp [h1, h2]

theorem phase_flight_iff {s : GameState} :
    phase s = .Flight ↔ s.acceptingBets = false ∧ s.roundActive = true := by
  unfold phase
  by_cases h1 : s.acceptingBets <;> by_cases h2 : s.roundActive <;> simp [h1, h2]

theorem phase_crashed_iff {s : GameState} :
    phase s = .Crashed ↔ s.acceptingBets = false ∧ s.roundActive = false := by
  unfold phase
  by_cases h1 : s.acceptingBets <;> by_cases h2 : s.roundActive <;> simp [h1, h2]

/-! ### round2 lemmas -/

theorem round2_intCast_div_100 (j : ℤ) : round2 ((j : ℚ) / 100) = (j : ℚ) / 100 := by
  unfold round2
  rw [div_mul_cancel₀ _ (by norm_num : (100 : ℚ) ≠ 0), round_intCast]

theorem round2_lt_bounds (q : ℚ) : q - 1 / 200 < round2 q ∧ round2 q ≤ q + 1 / 200 := by
  unfold round2
  have h1 : (q * 100 + 1 / 2) - 1 < (⌊q * 100 + 1 / 2⌋ : ℚ) := Int.sub_one_lt_floor _
  have h2 : (⌊q * 100 + 1 / 2⌋ : ℚ) ≤ q * 100 + 1 / 2 := Int.floor_le _
  rw [round_eq]
  constructor <;> [nlinarith; nlinarith]

theorem lt_round2_add (q : ℚ) : q < round2 (q + 1 / 100) := by
  have h := (round2_lt_bounds (q + 1 / 100)).1
  linarith

/-! ### Handler behaviour lemmas (shared) -/

/-- `place_bet` on an open betting window with sufficient balance: debit and
record (overwrite) the bet. -/
theorem place_bet_accepts (s : GameState) (u : ℤ) (a b : ℚ)
    (hacc : s.acceptingBets = true) (hbal : getUser s.balances u = some b) (hle : a ≤ b) :
    place_bet s u a =
      ({ s with balances := updateUser s.balances u (b - a),
                bets := setBet s.bets u a }, .accepted) := by
  simp [place_bet, hacc, hbal, not_lt.mpr hle]

/-- `cashout` with a recorded bet and an existing user row: pay
`amount * current_multiplier` and delete the bet. -/
theorem cashout_spec (s : GameState) (u : ℤ) (amt b : ℚ)
    (hbet : getBet s.bets u = some amt) (hbal : getUser s.balances u = some b) :
    cashout s u =
      ({ s with balances := updateUser s.balances u (b + amt * s.currentMultiplier),
                bets := delBet s.bets u }, .success (amt * s.currentMultiplier)) := by
  simp [cashout, hbet, hbal]

/-- `cashout` with no recorded bet: rejected, state unchanged. -/
theorem cashout_no_bet (s : GameState) (u : ℤ) (hbet : getBet s.bets u = none) :
    cashout s u = (s, .betNotFound) := by
  simp [cashout, hbet]

theorem round2_mono {p q : ℚ} (h : p ≤ q) : round2 p ≤ round2 q := by
  unfold round2
  rw [round_eq, round_eq]
  have hf : ⌊p * 100 + 1 / 2⌋ ≤ ⌊q * 100 + 1 / 2⌋ := Int.floor_mono (by linarith)
  have hq : ((⌊p * 100 + 1 / 2⌋ : ℤ) : ℚ) ≤ ((⌊q * 100 + 1 / 2⌋ : ℤ) : ℚ) := by
    exact_mod_cast hf
  linarith

/-! ### Claim C3 -/

/-- C3: `place_bet` invoked while the round phase is not `Waiting` (the
`accepting_bets` flag is down) is rejected with the betting-closed message and
returns the state unchanged: neither the balance table nor the bet registry
is mutated. -/
theorem placeBet_outside_waiting_rejected (s : GameState) (u : ℤ) (amount : ℚ)
    (h : phase s ≠ .Waiting) :
    place_bet s u amount = (s, .bettingClosed) := by
  have hacc : s.acceptingBets = false := by
    cases hb : s.acceptingBets
    · rfl
    · exact absurd (phase_waiting_iff.mpr hb) h
  simp [place_bet, hacc]

/-- Witness for C3: in the initial state the phase is `Crashed`, and a bet of
20 by user 1 is rejected without any state change. -/
theorem placeBet_outside_waiting_rejected_witness :
    phase initState ≠ .Waiting ∧ place_bet initState 1 20 = (initState, .bettingClosed) :=
  ⟨by decide, placeBet_outside_waiting_rejected initState 1 20 (by decide)⟩

/-! ### Claim C5 -/

/-- C5: a successful cashout of user `u` holding bet `amt` pays exactly
`amt * current_multiplier` at the instant of execution, the stored balance
grows by exactly that payout, and the bet is removed from the registry. -/
theorem cashout_success_pays_amount_times_multiplier (s : GameState) (u : ℤ) (amt b : ℚ)
    (hbet : getBet s.bets u = some amt) (hbal : getUser s.balances u = some b) :
    (cashout s u).2 = .success (amt * s.currentMultiplier) ∧
    getUser (cashout s u).1.balances u = some (b + amt * s.currentMultiplier) ∧
    getBet (cashout s u).1.bets u = none := by
  rw [cashout_spec s u amt b hbet hbal]
  exact ⟨rfl, getUser_updateUser_self _ hbal, getBet_delBet_self _ _⟩

/-- The Flight-phase state of the spec's cashout scenario: user A staked 20
(balance already debited from 100 to 80) and the multiplier has risen
to 1.53. -/
def scenarioA : GameState :=
  { balances := [(1, 80)], bets := [(1, 20)], currentMultiplier := 153/100,
    crashMultiplier := 2, roundActive := true, acceptingBets := false }

/-- Witness for C5, the spec's own scenario: stake 20 cashed out at
multiplier 1.53 pays 30.60 and takes the balance from 80 to 110.60, and the
registry no longer contains the bet. -/
theorem cashout_success_witness :
    (cashout scenarioA 1).2 = .success (306/10) ∧
    getUser (cashout scenarioA 1).1.balances 1 = some (1106/10) ∧
    getBet (cashout scenarioA 1).1.bets 1 = none := by
  have h := cashout_success_pays_amount_times_multiplier scenarioA 1 20 80
    (by simp [scenarioA, getBet]) (by simp [scenarioA, getUser])
  refine ⟨?_, ?_, h.2.2⟩
  · rw [h.1]; norm_num [scenarioA]
  · rw [h.2.1]; norm_num [scenarioA]

/-! ### Claim C4 -/

/-- Counterexample to C4 as stated: user 1 already holds an active bet of 10
this round, yet a second `place_bet` of 20 does not fail with a duplicate-bet
error — it is accepted, the balance is debited again (90 to 70), and the
recorded bet is overwritten (10 to 20). -/
theorem second_placeBet_not_rejected :
    getBet (run initState [.engine 0, .topup 1 100, .placeBet 1 10]).bets 1 = some 10 ∧
    place_bet (run initState [.engine 0, .topup 1 100, .placeBet 1 10]) 1 20 =
      ({ balances := [(1, 70)], bets := [(1, 20)], currentMultiplier := 1,
         crashMultiplier := 2, roundActive := false, acceptingBets := true }, .accepted) := by
  norm_num [run, step, engineStep, initState, topup_balance, place_bet,
            getUser, updateUser, addUser, getBet, setBet]

/-- C4 as amended: a second `place_bet` by a user who already has an active
bet is not rejected; whenever the phase is `Waiting` and the balance covers
the new amount it succeeds, debits the balance again, and silently replaces
the recorded bet with the new amount. -/
theorem second_placeBet_overwrites (s : GameState) (u : ℤ) (a amt b : ℚ)
    (hph : phase s = .Waiting) (_hbet : getBet s.bets u = some amt)
    (hbal : getUser s.balances u = some b) (hle : a ≤ b) :
    (place_bet s u a).2 = .accepted ∧
    getUser (place_bet s u a).1.balances u = some (b - a) ∧
    getBet (place_bet s u a).1.bets u = some a := by
  rw [place_bet_accepts s u a b (phase_waiting_iff.mp hph) hbal hle]
  exact ⟨rfl, getUser_updateUser_self _ hbal, getBet_setBet_self _ _ _⟩

/-- A `Waiting`-phase state in which user 1 already holds a bet of 10 with
balance 90. -/
def waitingWithBet : GameState :=
  { balances := [(1, 90)], bets := [(1, 10)], currentMultiplier := 1,
    crashMultiplier := 2, roundActive := false, acceptingBets := true }

/-- Witness for the amended C4: user 1 holds bet 10 with balance 90 in the
betting window; a second bet of 20 is accepted, the balance drops to 70 and
the registry entry becomes 20. -/
theorem second_placeBet_overwrites_witness :
    (place_bet waitingWithBet 1 20).2 = .accepted ∧
    getUser (place_bet waitingWithBet 1 20).1.balances 1 = some 70 ∧
    getBet (place_bet waitingWithBet 1 20).1.bets 1 = some 20 := by
  have h := second_placeBet_overwrites waitingWithBet 1 20 10 90
    (by decide) (by decide) (by decide) (by norm_num)
  refine ⟨h.1, ?_, h.2.2⟩
  rw [h.2.1]
  norm_num

/-! ### Claim C1 -/

/-- C1 is a code bug: `cashout` never checks the round phase.  Concretely,
from the initial state the engine opens the betting window (phase `Waiting`),
user 1 tops up 100 and stakes 20; a cashout issued while the phase is still
`Waiting` — not `Flight` — succeeds, credits `20 * current_multiplier = 20`
back to the balance and removes the bet, where the claim requires any cashout
outside `Flight` to fail without crediting or removing anything.  (After a
crash the registry is empty, so a post-crash cashout does fail, but with the
bet-not-found message, not a too-late error, which does not exist in the
code.) -/
theorem cashout_during_waiting_succeeds :
    phase (run initState [.engine 0, .topup 1 100, .placeBet 1 20]) = .Waiting ∧
    cashout (run initState [.engine 0, .topup 1 100, .placeBet 1 20]) 1 =
      ({ balances := [(1, 100)], bets := [], currentMultiplier := 1, crashMultiplier := 2,
         roundActive := false, acceptingBets := true }, .success 20) := by
  norm_num [run, step, engineStep, initState, topup_balance, place_bet, cashout, phase,
            getUser, updateUser, addUser, getBet, setBet, delBet]

/-! ### Claim C10 -/

/-- C10: rounding is applied only when values are reported, never to stored
state.  `get_balance` reports the stored balance rounded to 2 decimals while
the stored balance itself is kept exact (`topup_balance` stores `b + a`
unrounded), and a successful cashout credits the unrounded product
`amt * current_multiplier` while the success message reports it rounded to 2
decimals. -/
theorem rounding_only_on_report (db : List (ℤ × ℚ)) (u : ℤ) (b a : ℚ)
    (s : GameState) (v : ℤ) (amt bb : ℚ)
    (hdb : getUser db u = some b)
    (hbet : getBet s.bets v = some amt) (hbal : getUser s.balances v = some bb) :
    get_balance db u = round2 b ∧
    getUser (topup_balance db u a) u = some (b + a) ∧
    getUser (cashout s v).1.balances v = some (bb + amt * s.currentMultiplier) ∧
    cashoutReportedPayout s v = some (round2 (amt * s.currentMultiplier)) := by
  refine ⟨by simp [get_balance, hdb], ?_, ?_, ?_⟩
  · simp only [topup_balance, hdb]
    exact getUser_updateUser_self _ hdb
  · rw [cashout_spec s v amt bb hbet hbal]
    exact getUser_updateUser_self _ hbal
  · unfold cashoutReportedPayout
    rw [cashout_spec s v amt bb hbet hbal]

/-- A Flight-phase state in which user 2 holds a bet of 0.25 with balance 10
and the multiplier is 1.01. -/
def quarterBetState : GameState :=
  { balances := [(2, 10)], bets := [(2, 1/4)], currentMultiplier := 101/100,
    crashMultiplier := 2, roundActive := true, acceptingBets := false }

/-- Witness for C10: a stored balance of 2.003 is reported as 2.00 but topping
up 0.001 stores exactly 2.004; a cashout of stake 0.25 at multiplier 1.01
stores the unrounded 10 + 0.2525 = 10.2525 while the message reports 0.25. -/
theorem rounding_only_on_report_witness :
    get_balance [(1, 2003/1000)] 1 = 2 ∧
    getUser (topup_balance [(1, 2003/1000)] 1 (1/1000)) 1 = some (2004/1000) ∧
    getUser (cashout quarterBetState 2).1.balances 2 = some (4101/400) ∧
    cashoutReportedPayout quarterBetState 2 = some (1/4) := by
  have h := rounding_only_on_report [(1, 2003/1000)] 1 (2003/1000) (1/1000)
    quarterBetState 2 (1/4) 10
    (by norm_num [getUser]) (by norm_num [quarterBetState, getBet]) (by norm_num [quarterBetState, getUser])
  refine ⟨?_, ?_, ?_, ?_⟩
  · rw [h.1]; norm_num [round2, round_eq]
  · rw [h.2.1]; norm_num
  · rw [h.2.2.1]; norm_num [quarterBetState]
  · rw [h.2.2.2]; norm_num [quarterBetState, round2, round_eq]

/-- Request handlers never change the two phase flags, so only the engine
drives the phase. -/
theorem phase_step_handler (s : GameState) (u : ℤ) (a : ℚ) :
    phase (step s (.topup u a)) = phase s ∧
    phase (step s (.placeBet u a)) = phase s ∧
    phase (step s (.cashoutReq u)) = phase s := by
  refine ⟨rfl, ?_, ?_⟩
  · show phase (place_bet s u a).1 = phase s
    cases hacc : s.acceptingBets with
    | false => simp [place_bet, hacc]
    | true =>
      cases hg : getUser s.balances u with
      | none => simp [place_bet, hacc, hg]
      | some b =>
        by_cases hlt : b < a
        · simp [place_bet, hacc, hg, hlt]
        · simp [place_bet, phase, hacc, hg, hlt]
  · show phase (cashout s u).1 = phase s
    cases hbet : getBet s.bets u with
    | none => simp [cashout, hbet]
    | some amt =>
      cases hg : getUser s.balances u with
      | none => simp [cashout, hbet, hg]
      | some b => simp [cashout, phase, hbet, hg]

/-! ### Claim C6 -/

/-- C6: round-engine dynamics, with the crash draw abstracted as the `draw`
argument (the code calls `random.uniform(1.5, 3.0)` and stores the draw
rounded to 2 decimals): on `Waiting → Flight` entry the multiplier is reset
to 1.0 and the stored crash multiplier lies in [1.5, 3.0] whenever the draw
does; each Flight tick sets the multiplier to `round2 (m + 0.01)`, which
never decreases it; Flight transitions to `Crashed` exactly when the
multiplier has reached the crash multiplier; and `Crashed` transitions back
to `Waiting`, so the phase sequence is always
Waiting → Flight → … → Flight → Crashed → Waiting. -/
theorem engine_round_dynamics (s : GameState) (draw : ℚ) :
    (phase s = .Waiting →
       phase (engineStep draw s) = .Flight ∧
       (engineStep draw s).currentMultiplier = 1 ∧
       (engineStep draw s).crashMultiplier = round2 draw ∧
       (3/2 ≤ draw → draw ≤ 3 →
         3/2 ≤ (engineStep draw s).crashMultiplier ∧
         (engineStep draw s).crashMultiplier ≤ 3)) ∧
    (phase s = .Flight → s.currentMultiplier < s.crashMultiplier →
       phase (engineStep draw s) = .Flight ∧
       (engineStep draw s).currentMultiplier = round2 (s.currentMultiplier + 1/100) ∧
       s.currentMultiplier ≤ (engineStep draw s).currentMultiplier) ∧
    (phase s = .Flight →
       (phase (engineStep draw s) = .Crashed ↔ s.crashMultiplier ≤ s.currentMultiplier)) ∧
    (phase s = .Crashed → phase (engineStep draw s) = .Waiting) ∧
    (∀ (u : ℤ) (a : ℚ),
       phase (step s (.topup u a)) = phase s ∧
       phase (step s (.placeBet u a)) = phase s ∧
       phase (step s (.cashoutReq u)) = phase s) := by
  have hlow : (3/2 : ℚ) = round2 (3/2) := by norm_num [round2, round_eq]
  have hhigh : round2 (3 : ℚ) = 3 := by norm_num [round2, round_eq]
  refine ⟨?_, ?_, ?_, ?_, fun u a => phase_step_handler s u a⟩
  · intro hw
    have hacc := phase_waiting_iff.mp hw
    constructor
    · simp [engineStep, hacc, phase_flight_iff]
    refine ⟨by simp [engineStep, hacc], by simp [engineStep, hacc], ?_⟩
    intro h1 h2
    simp only [engineStep, hacc, if_true]
    constructor
    · rw [hlow]; exact round2_mono h1
    · rw [← hhigh]; exact round2_mono h2
  · intro hf hlt
    obtain ⟨hacc, hact⟩ := phase_flight_iff.mp hf
    refine ⟨?_, ?_, ?_⟩
    · simp [engineStep, hacc, hact, hlt, phase_flight_iff]
    · simp [engineStep, hacc, hact, hlt]
    · simp only [engineStep, hacc, hact, hlt]
      simp only [Bool.false_eq_true, if_false, if_true]
      exact le_of_lt (lt_round2_add s.currentMultiplier)
  · intro hf
    obtain ⟨hacc, hact⟩ := phase_flight_iff.mp hf
    by_cases hlt : s.currentMultiplier < s.crashMultiplier
    · constructor
      · intro h
        have : phase (engineStep draw s) = .Flight := by
          simp [engineStep, hacc, hact, hlt, phase_flight_iff]
        rw [this] at h
        cases h
      · intro h
        exact absurd hlt (not_lt.mpr h)
    · constructor
      · intro _
        exact not_lt.mp hlt
      · intro _
        simp [engineStep, hacc, hact, hlt, phase_crashed_iff]
  · intro hc
    obtain ⟨hacc, hact⟩ := phase_crashed_iff.mp hc
    simp [engineStep, hacc, hact, phase_waiting_iff]

/-- A Flight-phase state whose multiplier has reached the crash multiplier. -/
def flightDone : GameState :=
  { balances := [(1, 80)], bets := [(1, 20)], currentMultiplier := 2,
    crashMultiplier := 2, roundActive := true, acceptingBets := false }

/-- Witness for C6: a concrete Flight entry from `Waiting` with draw 1.6, a
concrete tick from multiplier 1.53, a concrete crash once the multiplier has
reached the crash value, and the `Crashed → Waiting` step from the initial
state. -/
theorem engine_round_dynamics_witness :
    (phase (engineStep (8/5) waitingWithBet) = .Flight ∧
     (engineStep (8/5) waitingWithBet).currentMultiplier = 1 ∧
     3/2 ≤ (engineStep (8/5) waitingWithBet).crashMultiplier ∧
     (engineStep (8/5) waitingWithBet).crashMultiplier ≤ 3) ∧
    (phase (engineStep 0 scenarioA) = .Flight ∧
     (engineStep 0 scenarioA).currentMultiplier = round2 (153/100 + 1/100) ∧
     scenarioA.currentMultiplier ≤ (engineStep 0 scenarioA).currentMultiplier) ∧
    phase (engineStep 0 flightDone) = .Crashed ∧
    phase (engineStep 0 initState) = .Waiting := by
  have h1 := engine_round_dynamics waitingWithBet (8/5)
  have h2 := engine_round_dynamics scenarioA 0
  have h3 := engine_round_dynamics flightDone 0
  have h4 := engine_round_dynamics initState 0
  have hw : phase waitingWithBet = .Waiting := by decide
  have hfA : phase scenarioA = .Flight := by decide
  have hltA : scenarioA.currentMultiplier < scenarioA.crashMultiplier := by
    norm_num [scenarioA]
  have hfD : phase flightDone = .Flight := by decide
  have hgeD : flightDone.crashMultiplier ≤ flightDone.currentMultiplier := by
    norm_num [flightDone]
  have hcI : phase initState = .Crashed := by decide
  refine ⟨⟨(h1.1 hw).1, (h1.1 hw).2.1, ?_⟩, ?_, ?_, h4.2.2.2.1 hcI⟩
  · exact (h1.1 hw).2.2.2 (by norm_num) (by norm_num)
  · have ht := h2.2.1 hfA hltA
    rw [show scenarioA.currentMultiplier = 153/100 from rfl] at ht
    exact ⟨ht.1, ht.2.1, by rw [show scenarioA.currentMultiplier = 153/100 from rfl]; exact ht.2.2⟩
  · exact (h3.2.2.1 hfD).mpr hgeD

/-! ### Claim C2 -/

/-- From any Flight-phase state whose multiplier is an exact multiple of 0.01
(as all reachable Flight states are), the engine alone reaches the crash
transition in finitely many segments: the registry is force-cleared and no
balance is touched (forfeited stakes are not refunded). -/
theorem flight_terminates (k : ℕ) : ∀ s : GameState, phase s = .Flight →
    (∃ j : ℤ, s.currentMultiplier = (j : ℚ) / 100) →
    s.crashMultiplier ≤ s.currentMultiplier + (k : ℚ) / 100 →
    ∃ n : ℕ, phase ((engineStep 0)^[n] s) = .Crashed ∧
      ((engineStep 0)^[n] s).bets = [] ∧ ((engineStep 0)^[n] s).balances = s.balances := by
  induction k with
  | zero =>
    intro s hph _ hle
    obtain ⟨hacc, hact⟩ := phase_flight_iff.mp hph
    have hnot : ¬ s.currentMultiplier < s.crashMultiplier := by
      push_cast at hle
      exact not_lt.mpr (by linarith)
    refine ⟨1, ?_⟩
    rw [Function.iterate_one]
    simp [engineStep, hacc, hact, hnot, phase_crashed_iff]
  | succ k ih =>
    intro s hph h2dp hle
    obtain ⟨hacc, hact⟩ := phase_flight_iff.mp hph
    by_cases hlt : s.currentMultiplier < s.crashMultiplier
    · obtain ⟨j, hj⟩ := h2dp
      have hstep : engineStep 0 s =
          { s with currentMultiplier := round2 (s.currentMultiplier + 1/100) } := by
        simp [engineStep, hacc, hact, hlt]
      have hr : round2 (s.currentMultiplier + 1/100) = ((j + 1 : ℤ) : ℚ) / 100 := by
        rw [hj, show ((j : ℚ)) / 100 + 1/100 = ((j + 1 : ℤ) : ℚ) / 100 by push_cast; ring]
        exact round2_intCast_div_100 (j + 1)
      have hcur : (engineStep 0 s).currentMultiplier = ((j + 1 : ℤ) : ℚ) / 100 := by
        rw [hstep]; exact hr
      have hph' : phase (engineStep 0 s) = .Flight := by
        rw [hstep]; simp [phase_flight_iff, hacc, hact]
      have hle' : (engineStep 0 s).crashMultiplier ≤
          (engineStep 0 s).currentMultiplier + (k : ℚ) / 100 := by
        rw [hstep]
        show s.crashMultiplier ≤ round2 (s.currentMultiplier + 1/100) + (k : ℚ) / 100
        rw [hr]
        rw [hj] at hle
        push_cast at hle ⊢
        linarith
      obtain ⟨n, hn1, hn2, hn3⟩ := ih (engineStep 0 s) hph' ⟨j + 1, hcur⟩ hle'
      refine ⟨n + 1, ?_, ?_, ?_⟩
      · rwa [Function.iterate_succ_apply]
      · rwa [Function.iterate_succ_apply]
      · rw [Function.iterate_succ_apply, hn3, hstep]
    · refine ⟨1, ?_⟩
      rw [Function.iterate_one]
      simp [engineStep, hacc, hact, hlt, phase_crashed_iff]

/-- The Waiting-phase state reached by opening the betting window and letting
user 1 top up 100 and then stake twice, 10 and then 20, in the same round. -/
def doubleBetState : GameState :=
  run initState [.engine 0, .topup 1 100, .placeBet 1 10, .placeBet 1 20]

/-- Counterexample to C2 as stated: user 1 places two bets (10, then 20) in
one betting window.  The balance is debited by both stakes (100 → 70), but
the registry keeps only the 20-bet: the 10-bet vanished without either
cashout or crash forfeiture, and the only settlement still possible pays on
the 20-bet alone (an immediate cashout returns 20 × 1.0 = 20, leaving 90 of
the original 100), so the 10-bet is resolved by neither path — "never
neither" fails. -/
theorem double_placeBet_loses_first_bet :
    getUser doubleBetState.balances 1 = some 70 ∧
    getBet doubleBetState.bets 1 = some 20 ∧
    (cashout doubleBetState 1).2 = .success 20 ∧
    getUser (cashout doubleBetState 1).1.balances 1 = some 90 := by
  norm_num [doubleBetState, run, step, engineStep, initState, topup_balance, place_bet,
            cashout, getUser, updateUser, addUser, getBet, setBet, delBet]

/-- C2 as amended: exactly-once settlement holds per *registry entry* (the
user's most recent unresolved bet), not per placed bet, since a re-placement
silently overwrites the previous entry.  For a user with a recorded bet:
a successful cashout pays once, removes the entry, and a repeated cashout
fails without paying; the crash transition clears the registry without
touching any balance (no refund), after which a cashout fails without
paying; and from any (reachable, i.e. 0.01-grid) Flight state the engine
reaches that crash transition after finitely many segments, so an uncashed
entry is always eventually forfeited — never both, never neither. -/
theorem bet_settled_exactly_once (s : GameState) (u : ℤ) (amt b : ℚ)
    (hbet : getBet s.bets u = some amt) :
    (getUser s.balances u = some b →
       (cashout s u).2 = .success (amt * s.currentMultiplier) ∧
       getBet (cashout s u).1.bets u = none ∧
       cashout (cashout s u).1 u = ((cashout s u).1, .betNotFound)) ∧
    (phase s = .Flight → s.crashMultiplier ≤ s.currentMultiplier →
       (engineStep 0 s).bets = [] ∧
       (engineStep 0 s).balances = s.balances ∧
       cashout (engineStep 0 s) u = (engineStep 0 s, .betNotFound)) ∧
    (phase s = .Flight → (∃ j : ℤ, s.currentMultiplier = (j : ℚ) / 100) →
       ∃ n : ℕ, phase ((engineStep 0)^[n] s) = .Crashed ∧
         ((engineStep 0)^[n] s).bets = [] ∧ ((engineStep 0)^[n] s).balances = s.balances) := by
  refine ⟨?_, ?_, ?_⟩
  · intro hbal
    rw [cashout_spec s u amt b hbet hbal]
    refine ⟨rfl, getBet_delBet_self _ _, ?_⟩
    exact cashout_no_bet _ u (getBet_delBet_self _ _)
  · intro hf hge
    obtain ⟨hacc, hact⟩ := phase_flight_iff.mp hf
    have hstep : engineStep 0 s = { s with roundActive := false, bets := [] } := by
      simp [engineStep, hacc, hact, not_lt.mpr hge]
    refine ⟨by rw [hstep], by rw [hstep], ?_⟩
    exact cashout_no_bet _ u (by rw [hstep]; rfl)
  · intro hf h2dp
    have hk : s.crashMultiplier ≤ s.currentMultiplier +
        ((((⌈(s.crashMultiplier - s.currentMultiplier) * 100⌉).toNat : ℕ) : ℚ)) / 100 := by
      have h1 : ((s.crashMultiplier - s.currentMultiplier) * 100 : ℚ) ≤
          ((⌈(s.crashMultiplier - s.currentMultiplier) * 100⌉ : ℤ) : ℚ) := Int.le_ceil _
      have h2 : (⌈(s.crashMultiplier - s.currentMultiplier) * 100⌉ : ℤ) ≤
          ((⌈(s.crashMultiplier - s.currentMultiplier) * 100⌉).toNat : ℤ) :=
        Int.self_le_toNat _
      have h3 : ((⌈(s.crashMultiplier - s.currentMultiplier) * 100⌉ : ℤ) : ℚ) ≤
          (((⌈(s.crashMultiplier - s.currentMultiplier) * 100⌉).toNat : ℕ) : ℚ) := by
        exact_mod_cast h2
      linarith
    exact flight_terminates _ s hf h2dp hk

/-- Witness for the amended C2: instantiated once at the Flight state of the
cashout scenario (multiplier 1.53, on the 0.01 grid) and once at a Flight
state that has reached its crash multiplier. -/
theorem bet_settled_exactly_once_witness :
    ((cashout scenarioA 1).2 = .success (20 * scenarioA.currentMultiplier) ∧
     getBet (cashout scenarioA 1).1.bets 1 = none ∧
     cashout (cashout scenarioA 1).1 1 = ((cashout scenarioA 1).1, .betNotFound)) ∧
    ((engineStep 0 flightDone).bets = [] ∧
     (engineStep 0 flightDone).balances = flightDone.balances ∧
     cashout (engineStep 0 flightDone) 1 = (engineStep 0 flightDone, .betNotFound)) ∧
    (∃ n : ℕ, phase ((engineStep 0)^[n] scenarioA) = .Crashed ∧
       ((engineStep 0)^[n] scenarioA).bets = [] ∧
       ((engineStep 0)^[n] scenarioA).balances = scenarioA.balances) := by
  have h1 := bet_settled_exactly_once scenarioA 1 20 80 (by simp [scenarioA, getBet])
  have h2 := bet_settled_exactly_once flightDone 1 20 80 (by simp [flightDone, getBet])
  refine ⟨h1.1 (by simp [scenarioA, getUser]), ?_, ?_⟩
  · exact h2.2.1 (by decide) (by norm_num [flightDone])
  · exact h1.2.2 (by decide) ⟨153, by norm_num [scenarioA]⟩

/-! ### Reconciliation worker (`POST /check`, lines 111-160) -/

/-- The fields of an inbound transfer message used by `check_transactions`:
`msg.get("comment")` and `msg.get("value", 0)` (raw amount in nanoTON). -/
structure InMsg where
  comment : Option String
  value : ℤ
  deriving DecidableEq, Repr

/-- An external blockchain transaction as consumed by `check_transactions`:
`tx["hash"]` and `tx.get("in_msg")`. -/
structure Tx where
  hash : String
  in_msg : Option InMsg
  deriving DecidableEq, Repr

/-- The state touched by the reconciliation worker: the same `users` table
and the permanent `processed_transactions` dedup table (its `tx_hash`
column). -/
structure ReconState where
  users : List (ℤ × ℚ)
  processed : List String
  deriving DecidableEq, Repr

/-- The memo-parsing chain of lines 126-137: skip when `in_msg` is missing,
the comment is missing or empty (falsy), the comment does not start with
`user_`, or stripping every occurrence of `user_` leaves no integer.
(Python's `int(...)` also tolerates whitespace and underscores, which
`String.toInt?` does not; no claim depends on such memos.) -/
def txUserId (tx : Tx) : Option ℤ :=
  match tx.in_msg with
  | none => none
  | some m =>
    match m.comment with
    | none => none
    | some c =>
      if c = "" then none
      else if c.startsWith "user_" then (c.replace "user_" "").toInt? else none

/-- Line 139: `int(msg.get("value", 0)) / 1e9` (nanoTON to TON). -/
def txAmount (tx : Tx) : ℚ :=
  match tx.in_msg with
  | none => 0
  | some m => (m.value : ℚ) / 1000000000

/-- The body of the per-transaction loop of `check_transactions`
(lines 124-158): parse the memo, skip if the hash is already recorded,
otherwise credit the user (creating the row if needed) and record the hash;
the session commits at the end of each iteration. -/
def processTx (s : ReconState) (tx : Tx) : ReconState :=
  match txUserId tx with
  | none => s
  | some uid =>
    if tx.hash ∈ s.processed then s
    else
      { users :=
          match getUser s.users uid with
          | some b => updateUser s.users uid (b + txAmount tx)
          | none => addUser s.users uid (txAmount tx),
        processed := tx.hash :: s.processed }

/-- `POST /check`: one reconciliation pass over the fetched transaction
list. -/
def check_transactions (s : ReconState) (txs : List Tx) : ReconState :=
  txs.foldl processTx s

theorem processTx_skip (s : ReconState) (tx : Tx) (h : tx.hash ∈ s.processed) :
    processTx s tx = s := by
  unfold processTx
  cases htx : txUserId tx with
  | none => rfl
  | some uid => simp [h]

theorem processTx_invalid {tx : Tx} (h : txUserId tx = none) (s : ReconState) :
    processTx s tx = s := by
  unfold processTx
  rw [h]

theorem processTx_processed_mono {s : ReconState} {tx : Tx} {h : String}
    (hm : h ∈ s.processed) : h ∈ (processTx s tx).processed := by
  unfold processTx
  cases htx : txUserId tx with
  | none => exact hm
  | some uid =>
    by_cases hh : tx.hash ∈ s.processed
    · simpa [hh] using hm
    · simpa [hh] using Or.inr hm

theorem check_processed_mono (txs : List Tx) : ∀ {s : ReconState} {h : String},
    h ∈ s.processed → h ∈ (check_transactions s txs).processed := by
  induction txs with
  | nil => intro s h hm; exact hm
  | cons tx txs ih =>
    intro s h hm
    exact ih (processTx_processed_mono hm)

theorem processTx_records {tx : Tx} {uid : ℤ} (h : txUserId tx = some uid)
    (s : ReconState) : tx.hash ∈ (processTx s tx).processed := by
  unfold processTx
  rw [h]
  by_cases hh : tx.hash ∈ s.processed
  · simp [hh]
  · simp [hh]

theorem check_append (s : ReconState) (l1 l2 : List Tx) :
    check_transactions s (l1 ++ l2) = check_transactions (check_transactions s l1) l2 :=
  List.foldl_append ..

/-! ### Claim C7 -/

/-- C7: at-most-once crediting per external transaction identifier.  A
transaction whose hash is already in the dedup table is skipped entirely; a
second occurrence of the same transaction in one pass is a no-op (processing
`l1 ++ tx :: l2 ++ tx :: l3` equals processing `l1 ++ tx :: (l2 ++ l3)`); and
a later pass continues from the state of the earlier one (processing `l2`
after `l1` equals one pass over `l1 ++ l2`), so re-polling an overlapping
window can never credit an identifier twice. -/
theorem external_tx_credited_once (s : ReconState) (tx : Tx) (l1 l2 l3 : List Tx) :
    (tx.hash ∈ s.processed → processTx s tx = s) ∧
    check_transactions s (l1 ++ tx :: l2 ++ tx :: l3) =
      check_transactions s (l1 ++ tx :: (l2 ++ l3)) ∧
    check_transactions (check_transactions s l1) l2 = check_transactions s (l1 ++ l2) := by
  refine ⟨processTx_skip s tx, ?_, (check_append s l1 l2).symm⟩
  have hsplit : l1 ++ tx :: l2 ++ tx :: l3 = (l1 ++ [tx]) ++ (l2 ++ tx :: l3) := by simp
  have hsplit' : l1 ++ tx :: (l2 ++ l3) = (l1 ++ [tx]) ++ (l2 ++ l3) := by simp
  rw [hsplit, hsplit',
      check_append s (l1 ++ [tx]) (l2 ++ tx :: l3),
      check_append s (l1 ++ [tx]) (l2 ++ l3)]
  set s2 := check_transactions s (l1 ++ [tx]) with hs2
  have hid : processTx (check_transactions s2 l2) tx = check_transactions s2 l2 := by
    cases htx : txUserId tx with
    | none => exact processTx_invalid htx _
    | some uid =>
      apply processTx_skip
      apply check_processed_mono
      rw [hs2, check_append]
      exact processTx_records htx _
  rw [check_append s2 l2 (tx :: l3), check_append s2 l2 l3]
  show check_transactions (processTx (check_transactions s2 l2) tx) l3 =
    check_transactions (check_transactions s2 l2) l3
  rw [hid]

/-- The spec's reconciliation transaction: hash `tx123`, memo `user_42`,
amount 5 000 000 000 nanoTON (= 5.00). -/
def tx123 : Tx := { hash := "tx123", in_msg := some { comment := some "user_42", value := 5000000000 } }

/-- A dedup state that already contains `tx123`. -/
def seenTx123 : ReconState := { users := [(42, 5)], processed := ["tx123"] }

/-- Witness for C7: a transaction whose hash is already recorded is skipped,
a duplicated occurrence of `tx123` inside one pass changes nothing, and
re-running a pass over the same singleton window equals one pass over the
doubled window. -/
theorem external_tx_credited_once_witness :
    ("tx123" ∈ seenTx123.processed ∧ processTx seenTx123 tx123 = seenTx123) ∧
    check_transactions { users := [], processed := [] } ([] ++ tx123 :: [] ++ tx123 :: []) =
      check_transactions { users := [], processed := [] } ([] ++ tx123 :: ([] ++ [])) ∧
    check_transactions (check_transactions { users := [], processed := [] } [tx123]) [tx123] =
      check_transactions { users := [], processed := [] } ([tx123] ++ [tx123]) := by
  have hmem : ("tx123" : String) ∈ seenTx123.processed := by simp [seenTx123]
  have h1 := external_tx_credited_once seenTx123 tx123 [] [] []
  have h2 := external_tx_credited_once { users := [], processed := [] } tx123 [] [] []
  have h3 := external_tx_credited_once { users := [], processed := [] } tx123 [tx123] [tx123] []
  exact ⟨⟨hmem, h1.1 hmem⟩, h2.2.1, h3.2.2⟩

/-! ### Ledger accounting (for C8) -/

/-- The stored balance of a user: the table entry, or 0 for an unknown user
(matching `GetBalance`'s unknown-user default, but without the reporting
rounding). -/
def balanceOf (s : GameState) (u : ℤ) : ℚ := (getUser s.balances u).getD 0

/-- The delta an event applies to user `u`'s stored balance: the top-up
amount (always applied), minus the stake when a `place_bet` is accepted, plus
`amount * current_multiplier` when a cashout succeeds, 0 whenever the handler
rejects and for engine segments (which never touch balances). -/
def delta (s : GameState) (e : Event) (u : ℤ) : ℚ :=
  match e with
  | .topup v a => if v = u then a else 0
  | .placeBet v a =>
    if s.acceptingBets then
      match getUser s.balances v with
      | none => 0
      | some b => if b < a then 0 else if v = u then -a else 0
    else 0
  | .cashoutReq v =>
    match getBet s.bets v with
    | none => 0
    | some amt =>
      match getUser s.balances v with
      | none => 0
      | some _ => if v = u then amt * s.currentMultiplier else 0
  | .engine _ => 0

/-- The algebraic sum of the deltas applied to user `u` along a trace. -/
def sumDeltas : GameState → List Event → ℤ → ℚ
  | _, [], _ => 0
  | s, e :: evs, u => delta s e u + sumDeltas (step s e) evs u

/-- A well-formed request: top-up and bet amounts are positive, as the spec's
interface requires. -/
def goodEvent : Event → Prop
  | .topup _ a => 0 < a
  | .placeBet _ a => 0 < a
  | .cashoutReq _ => True
  | .engine _ => True

instance goodEvent_decidable : DecidablePred goodEvent := fun e => by
  unfold goodEvent
  cases e <;> infer_instance

theorem engineStep_balances (draw : ℚ) (s : GameState) :
    (engineStep draw s).balances = s.balances := by
  unfold engineStep
  split <;> first | rfl | (split <;> first | rfl | split <;> rfl)

theorem engineStep_bets (draw : ℚ) (s : GameState) :
    (engineStep draw s).bets = s.bets ∨ (engineStep draw s).bets = [] := by
  unfold engineStep
  split
  · exact Or.inl rfl
  split
  · split
    · exact Or.inl rfl
    · exact Or.inr rfl
  · exact Or.inl rfl

/-- One event changes a stored balance by exactly its delta. -/
theorem balanceOf_step (s : GameState) (e : Event) (u : ℤ) :
    balanceOf (step s e) u = balanceOf s u + delta s e u := by
  cases e with
  | topup v a =>
    show balanceOf { s with balances := topup_balance s.balances v a } u = _
    unfold balanceOf topup_balance delta
    cases hg : getUser s.balances v with
    | some b =>
      by_cases hu : v = u
      · subst hu
        simp [getUser_updateUser_self (b + a) hg, hg]
      · simp [getUser_updateUser_ne (b + a) (Ne.symm hu), hu]
    | none =>
      by_cases hu : v = u
      · subst hu
        simp [getUser_addUser_self a hg, hg]
      · simp [getUser_addUser_ne a (Ne.symm hu), hu]
  | placeBet v a =>
    show balanceOf (place_bet s v a).1 u = _
    unfold balanceOf place_bet delta
    cases hacc : s.acceptingBets with
    | false => simp
    | true =>
      cases hg : getUser s.balances v with
      | none => simp [hg]
      | some b =>
        by_cases hlt : b < a
        · simp [hg, hlt]
        · by_cases hu : v = u
          · subst hu
            simp [hg, hlt, getUser_updateUser_self (b - a) hg]
            ring
          · simp [hg, hlt, hu, getUser_updateUser_ne (b - a) (Ne.symm hu)]
  | cashoutReq v =>
    show balanceOf (cashout s v).1 u = _
    unfold balanceOf cashout delta
    cases hbet : getBet s.bets v with
    | none => simp [hbet]
    | some amt =>
      cases hg : getUser s.balances v with
      | none => simp [hbet, hg]
      | some b =>
        by_cases hu : v = u
        · subst hu
          simp [hbet, hg, getUser_updateUser_self (b + amt * s.currentMultiplier) hg]
        · simp [hbet, hg, hu,
                getUser_updateUser_ne (b + amt * s.currentMultiplier) (Ne.symm hu)]
  | engine draw =>
    show balanceOf (engineStep draw s) u = _
    unfold balanceOf delta
    rw [engineStep_balances]
    simp

/-- A stored balance after a trace is the starting balance plus the algebraic
sum of the applied deltas. -/
theorem balanceOf_run (evs : List Event) : ∀ (s : GameState) (u : ℤ),
    balanceOf (run s evs) u = balanceOf s u + sumDeltas s evs u := by
  induction evs with
  | nil => intro s u; simp [run, sumDeltas]
  | cons e evs ih =>
    intro s u
    show balanceOf (run (step s e) evs) u = _
    rw [ih (step s e) u, balanceOf_step]
    show _ = balanceOf s u + (delta s e u + sumDeltas (step s e) evs u)
    ring

/-- The state invariant behind non-negativity: all stored balances are
non-negative, all recorded stakes are positive, and the multiplier is at
least 1. -/
def Inv (s : GameState) : Prop :=
  (∀ u b, getUser s.balances u = some b → 0 ≤ b) ∧
  (∀ u a, getBet s.bets u = some a → 0 < a) ∧
  1 ≤ s.currentMultiplier

theorem inv_initState : Inv initState := by
  refine ⟨?_, ?_, le_refl 1⟩ <;> intro u b h <;> simp [initState, getUser, getBet] at h

theorem inv_step {s : GameState} {e : Event} (hinv : Inv s) (hg : goodEvent e) :
    Inv (step s e) := by
  obtain ⟨hbal, hbet, hmul⟩ := hinv
  cases e with
  | topup v a =>
    have ha : 0 < a := hg
    refine ⟨?_, hbet, hmul⟩
    intro u b h
    have h' : getUser (topup_balance s.balances v a) u = some b := h
    unfold topup_balance at h'
    cases hgv : getUser s.balances v with
    | some b0 =>
      rw [hgv] at h'
      rcases getUser_updateUser_cases h' with rfl | hold
      · have := hbal v b0 hgv
        linarith
      · exact hbal u b hold
    | none =>
      rw [hgv] at h'
      rcases getUser_addUser_cases h' with rfl | hold
      · linarith
      · exact hbal u b hold
  | placeBet v a =>
    have ha : 0 < a := hg
    show Inv (place_bet s v a).1
    unfold place_bet
    cases hacc : s.acceptingBets with
    | false => exact ⟨hbal, hbet, hmul⟩
    | true =>
      cases hgv : getUser s.balances v with
      | none => exact ⟨hbal, hbet, hmul⟩
      | some b0 =>
        by_cases hlt : b0 < a
        · simp only [hlt, if_true, Bool.not_true]
          exact ⟨hbal, hbet, hmul⟩
        · simp only [hlt, if_false, Bool.not_true]
          refine ⟨?_, ?_, hmul⟩
          · intro u b h
            rcases getUser_updateUser_cases h with rfl | hold
            · linarith [not_lt.mp hlt]
            · exact hbal u b hold
          · intro u c h
            rcases getBet_setBet_cases h with rfl | hold
            · exact ha
            · exact hbet u c hold
  | cashoutReq v =>
    show Inv (cashout s v).1
    unfold cashout
    cases hbv : getBet s.bets v with
    | none => exact ⟨hbal, hbet, hmul⟩
    | some amt =>
      cases hgv : getUser s.balances v with
      | none => exact ⟨hbal, hbet, hmul⟩
      | some b0 =>
        have hamt : 0 < amt := hbet v amt hbv
        have hb0 : 0 ≤ b0 := hbal v b0 hgv
        have hwin : 0 ≤ amt * s.currentMultiplier :=
          le_of_lt (mul_pos hamt (lt_of_lt_of_le one_pos hmul))
        refine ⟨?_, ?_, hmul⟩
        · intro u b h
          rcases getUser_updateUser_cases h with rfl | hold
          · linarith
          · exact hbal u b hold
        · intro u c h
          exact hbet u c (getBet_delBet_cases h)
  | engine draw =>
    refine ⟨?_, ?_, ?_⟩
    · intro u b h
      rw [show (step s (.engine draw)).balances = s.balances from engineStep_balances draw s] at h
      exact hbal u b h
    · intro u c h
      rcases engineStep_bets draw s with hb | hb
      · rw [show (step s (.engine draw)).bets = s.bets from hb] at h
        exact hbet u c h
      · rw [show (step s (.engine draw)).bets = [] from hb] at h
        simp [getBet] at h
    · show 1 ≤ (engineStep draw s).currentMultiplier
      unfold engineStep
      split
      · exact le_refl 1
      split
      · split
        · exact le_trans hmul (le_of_lt (lt_round2_add s.currentMultiplier))
        · exact hmul
      · exact hmul

theorem inv_run (evs : List Event) : ∀ s : GameState, Inv s →
    (∀ e ∈ evs, goodEvent e) → Inv (run s evs) := by
  induction evs with
  | nil => intro s hinv _; exact hinv
  | cons e evs ih =>
    intro s hinv hg
    exact ih (step s e) (inv_step hinv (hg e (List.mem_cons_self e evs)))
      (fun e' he' => hg e' (List.mem_cons_of_mem e he'))

/-- `GetBalance` reports the stored balance rounded to 2 decimals (the
unknown-user default 0 is its own rounding). -/
theorem get_balance_eq_round2 (db : List (ℤ × ℚ)) (u : ℤ) :
    get_balance db u = round2 ((getUser db u).getD 0) := by
  cases h : getUser db u with
  | some b => simp [get_balance, h]
  | none =>
    simp only [get_balance, h, Option.getD_none]
    norm_num [round2]

/-! ### Claim C8 -/

/-- Counterexample to C8 as stated: `topup_balance` does not validate its
amount, so a top-up of −5 drives user 1's balance (and the value `GetBalance`
reports) to −5, violating "never negative"; moreover `GetBalance` reports the
rounded balance, so after a top-up of 0.004 it returns 0, not the algebraic
sum 0.004 of the applied deltas. -/
theorem negative_topup_negative_balance :
    get_balance (run initState [.topup 1 (-5)]).balances 1 = -5 ∧
    get_balance (run initState [.topup 1 (1/250)]).balances 1 = 0 := by
  constructor <;>
    norm_num [run, step, initState, topup_balance, getUser, addUser, get_balance,
              round2, round_eq]

/-- C8 as amended: for any trace of handler and engine events whose top-up
and bet amounts are positive (as the spec's interface prescribes), every
user's stored balance equals the algebraic sum of the applied deltas, that
balance is never negative, and `GetBalance` reports it rounded to 2 decimal
places. -/
theorem balance_is_sum_of_deltas_and_nonneg (evs : List Event) (u : ℤ)
    (hgood : ∀ e ∈ evs, goodEvent e) :
    balanceOf (run initState evs) u = sumDeltas initState evs u ∧
    0 ≤ balanceOf (run initState evs) u ∧
    get_balance (run initState evs).balances u =
      round2 (balanceOf (run initState evs) u) := by
  have hsum := balanceOf_run evs initState u
  have h0 : balanceOf initState u = 0 := by simp [balanceOf, initState, getUser]
  have hinv := inv_run evs initState inv_initState hgood
  refine ⟨by rw [hsum, h0, zero_add], ?_, get_balance_eq_round2 _ u⟩
  unfold balanceOf
  cases h : getUser (run initState evs).balances u with
  | some b => exact hinv.1 u b h
  | none => simp

/-- The trace of the amended-C8 witness: open the window, top up 5, stake 2,
cash out at multiplier 1. -/
def c8Trace : List Event := [.engine 0, .topup 1 5, .placeBet 1 2, .cashoutReq 1]

/-- Witness for the amended C8 on a concrete well-formed trace: top-up 5,
bet 2, cashout at multiplier 1.0: the stored balance is the delta sum
5 − 2 + 2 = 5, non-negative, and reported as 5.00. -/
theorem balance_is_sum_of_deltas_witness :
    balanceOf (run initState c8Trace) 1 = sumDeltas initState c8Trace 1 ∧
    0 ≤ balanceOf (run initState c8Trace) 1 ∧
    get_balance (run initState c8Trace).balances 1 =
      round2 (balanceOf (run initState c8Trace) 1) :=
  balance_is_sum_of_deltas_and_nonneg c8Trace 1 (by
    intro e he
    simp only [c8Trace, List.mem_cons, List.not_mem_nil, or_false] at he
    rcases he with rfl | rfl | rfl | rfl <;> norm_num [goodEvent])

/-! ### Claim C9 -/

/-- The Waiting-phase state reached by opening the betting window and topping
user 1 up to 50. -/
def negBetState : GameState := run initState [.engine 0, .topup 1 50]

/-- C9 is a code bug: `place_bet` never validates the amount (the spec's
`Debit` requires `amount ≤ 0` to fail with `InvalidAmount`).  With balance 50
during the betting window, the funds check `user.balance < bet.amount` passes
for the non-positive amounts −10 and 0, so a bet of −10 is accepted, *adds*
10 to the balance (50 → 60) and records a bet of −10, and a bet of 0 is
likewise accepted — where the claim requires both to fail and mutate
nothing. -/
theorem nonpositive_placeBet_accepted :
    place_bet negBetState 1 (-10) =
      ({ balances := [(1, 60)], bets := [(1, -10)], currentMultiplier := 1,
         crashMultiplier := 2, roundActive := false, acceptingBets := true }, .accepted) ∧
    (place_bet negBetState 1 0).2 = .accepted := by
  constructor <;>
    norm_num [negBetState, run, step, engineStep, initState, topup_balance, place_bet,
              getUser, updateUser, addUser, getBet, setBet]

end Aviator
